import Mathlib

/-!
Shallow embedding of `litedram/core/refresher.py` (Migen RTL).

The source file contains three synchronous components, advanced in lockstep
by one clock:

* `RefreshTimer` — a countdown register `count` (reset value `trefi - 1`)
  with inputs `wait`, `load`, `load_count`, a combinational output
  `done = (count == 0)`, and (after the `ResetInserter()` wrapping applied in
  `Refresher.__init__`) a synchronous `reset` input that forces the register
  back to its reset value.
* `RefreshSequencer` — registered command outputs driven by
  `migen.genlib.misc.timeline(start, [(0, ras∕we), (trp, cas∕ras),
  (trp+trfc, done)])` together with per-step clearing defaults.
* `Refresher` — a three-state FSM (`IDLE`, `WAIT-CONTROLLER-GRANT`,
  `WAIT-SEQUENCER`) wiring the timer (`wait = ~done`,
  `reset = ~with_refresh`) to the sequencer through the `cmd` stream
  endpoint.

All registers are modelled as explicit state; one application of a step
function is one clock edge.  Combinational outputs are functions of the
current state (and current inputs).  Register widths never truncate on the
reachable values handled here (the decrement branch of the timer only runs
on a non-zero count, loads are guarded by `load_count < count`, and the
timeline counter is bounded by its last event), so `Nat` arithmetic is
exact.
-/

namespace LiteDRAM

/-- Inputs sampled by the (reset-wrapped) `RefreshTimer` on one clock. -/
structure TimerInput where
  wait : Bool
  load : Bool
  load_count : Nat
  reset : Bool
  deriving DecidableEq, Repr

/-- Combinational `done` output of `RefreshTimer`: `done.eq(count == 0)`. -/
def timerDone (count : Nat) : Bool := count == 0

/-- One synchronous update of the `RefreshTimer` count register
(`RefreshTimer.__init__`):
`If(wait, If(~done, If(load & (load_count < count), count.eq(load_count))
.Else(count.eq(count - 1)))).Else(count.eq(count.reset))` with
`count.reset = trefi - 1` and combinational `done = (count == 0)`.
When `wait` is high and the count is already zero no branch assigns the
register, so it holds its value. -/
def timerSync (trefi count : Nat) (wait load : Bool) (load_count : Nat) : Nat :=
  if wait then
    if count ≠ 0 then
      if load = true ∧ load_count < count then load_count else count - 1
    else count
  else trefi - 1

/-- The `ResetInserter()` wrapping applied to the timer in
`Refresher.__init__`: when `reset` is high every register of the wrapped
module takes its reset value on the clock edge instead of its normal
update. -/
def timerStep (trefi count : Nat) (inp : TimerInput) : Nat :=
  if inp.reset then trefi - 1 else timerSync trefi count inp.wait inp.load inp.load_count

/-- Trace of the timer count register from initial value `c0` under an
arbitrary input stream; `timerTrace trefi c0 inp n` is the register value
during step `n`. -/
def timerTrace (trefi c0 : Nat) (inp : Nat → TimerInput) : Nat → Nat
  | 0 => c0
  | n + 1 => timerStep trefi (timerTrace trefi c0 inp n) (inp n)

/-- The timer input produced by the wiring in `Refresher.__init__` with
refresh enabled: `wait = ~done`, no load, no reset. -/
def wiredInput (count : Nat) : TimerInput :=
  ⟨!timerDone count, false, 0, false⟩

/-- Timer trace starting from count `c0` under the `Refresher` wiring
(`wait = ~done`, refresh enabled, no load). -/
def wiredFrom (trefi c0 : Nat) : Nat → Nat
  | 0 => c0
  | n + 1 => timerStep trefi (wiredFrom trefi c0 n) (wiredInput (wiredFrom trefi c0 n))

/-- Timer trace from power-on (register reset value `trefi - 1`) under the
`Refresher` wiring. -/
def wiredTrace (trefi : Nat) : Nat → Nat := wiredFrom trefi (trefi - 1)

/-- Registers of `RefreshSequencer`: the `cmd` payload registers driven by
its `sync` block, the registered `done`, and the internal counter of the
`timeline` construct. -/
structure SeqState where
  a : Nat
  ba : Nat
  cas : Bool
  ras : Bool
  we : Bool
  done : Bool
  counter : Nat
  deriving DecidableEq, Repr

/-- Power-on state of the sequencer registers (all Migen registers reset
to 0). -/
def seqInit : SeqState := ⟨0, 0, false, false, false, false, 0⟩

/-- Event condition of `migen.genlib.misc.timeline`: the event at offset 0
fires on `trigger` while the counter is idle; an event at a positive offset
fires when the counter reaches that offset. -/
def evCond (start : Bool) (c offset : Nat) : Bool :=
  if offset = 0 then start && (c == 0) else c == offset

/-- Counter update of `migen.genlib.misc.timeline` with last event offset
`lastevent`.  This single formula covers both cases of the source: when
`lastevent + 1` is not a power of two the source inserts an explicit
`If(counter == lastevent, counter.eq(0))`, and when it is a power of two
the increment wraps to 0 modulo the register width at exactly
`counter == lastevent`; below `lastevent` the increment never wraps. -/
def tlCounterNext (lastevent c : Nat) (start : Bool) : Nat :=
  if c = lastevent then 0
  else if c ≠ 0 then c + 1
  else if start then 1 else 0

/-- One clock of `RefreshSequencer.__init__` with timings `trp`, `trfc`.
The `sync` list first drives the defaults
(`a = 2**10`, `ba = 0`, strobes and `done` cleared) and then the
`timeline(start, [(0, [ras, we]), (trp, [cas, ras]), (trp+trfc, [done])])`
events override them; later assignments win, so each output register is 1
exactly when its event condition holds.  (The source writes `2**10` into an
`a`-register of `abits` bits; all geometries here have `abits > 10`, so no
truncation occurs.) -/
def seqStep (trp trfc : Nat) (s : SeqState) (start : Bool) : SeqState where
  a := 2 ^ 10
  ba := 0
  cas := evCond start s.counter trp
  ras := evCond start s.counter 0 || evCond start s.counter trp
  we := evCond start s.counter 0
  done := evCond start s.counter (trp + trfc)
  counter := tlCounterNext (trp + trfc) s.counter start

/-- Trace of the sequencer registers from power-on under a `start` input
stream. -/
def seqTrace (trp trfc : Nat) (start : Nat → Bool) : Nat → SeqState
  | 0 => seqInit
  | n + 1 => seqStep trp trfc (seqTrace trp trfc start n) (start n)

/-- A trigger stream that is asserted at step `t` only. -/
def pulseAt (t : Nat) : Nat → Bool := fun n => n == t

/-- Closed form of the `timeline` counter in the run triggered once at
step `t`: idle until the trigger has been latched, then it runs
`1, 2, …, trp+trfc` during steps `t+1 … t+trp+trfc`, then it is back at 0. -/
def cntSpec (trp trfc t n : Nat) : Nat :=
  if t + 1 ≤ n ∧ n ≤ t + (trp + trfc) then n - t else 0

/-- States of the refresh FSM in `Refresher.__init__`
(`IDLE`, `WAIT-CONTROLLER-GRANT`, `WAIT-SEQUENCER`). -/
inductive FsmState where
  | idle
  | waitGrant
  | waitSeq
  deriving DecidableEq, Repr

/-- Registers of the complete `Refresher`: the timer count, the sequencer
registers, and the FSM state register (reset state `IDLE`). -/
structure RefState where
  count : Nat
  seq : SeqState
  fsm : FsmState
  deriving DecidableEq, Repr

/-- Combinational `cmd.valid`: driven to 1 in `WAIT-CONTROLLER-GRANT`, and
in `WAIT-SEQUENCER` while the sequencer is not done. -/
def cmdValid (s : RefState) : Bool :=
  match s.fsm with
  | .idle => false
  | .waitGrant => true
  | .waitSeq => !s.seq.done

/-- Combinational `cmd.last`: driven to 1 in `WAIT-SEQUENCER` on the step
where the sequencer reports done. -/
def cmdLast (s : RefState) : Bool :=
  match s.fsm with
  | .waitSeq => s.seq.done
  | _ => false

/-- Combinational `sequencer.start`: asserted in `WAIT-CONTROLLER-GRANT`
when `cmd.ready` is granted. -/
def seqStart (s : RefState) (ready : Bool) : Bool :=
  match s.fsm with
  | .waitGrant => ready
  | _ => false

/-- Next FSM state: `IDLE` leaves on the timer pulse,
`WAIT-CONTROLLER-GRANT` leaves on the grant, `WAIT-SEQUENCER` returns to
`IDLE` when the sequencer reports done. -/
def fsmNext (s : RefState) (ready : Bool) : FsmState :=
  match s.fsm with
  | .idle => if timerDone s.count then .waitGrant else .idle
  | .waitGrant => if ready then .waitSeq else .waitGrant
  | .waitSeq => if s.seq.done then .idle else .waitSeq

/-- One clock of the complete `Refresher`: the timer runs with
`wait = ~done` and `reset = ~with_refresh`, the sequencer is started by the
FSM, and the FSM advances. -/
def refStep (trefi trp trfc : Nat) (s : RefState) (ready withRefresh : Bool) : RefState where
  count := timerStep trefi s.count ⟨!timerDone s.count, false, 0, !withRefresh⟩
  seq := seqStep trp trfc s.seq (seqStart s ready)
  fsm := fsmNext s ready

/-- Power-on state of the `Refresher`. -/
def refInit (trefi : Nat) : RefState := ⟨trefi - 1, seqInit, .idle⟩

/-- Trace of the `Refresher` under arbitrary `cmd.ready` and
`with_refresh` input streams. -/
def refTrace (trefi trp trfc : Nat) (ready withRefresh : Nat → Bool) : Nat → RefState
  | 0 => refInit trefi
  | n + 1 =>
    refStep trefi trp trfc (refTrace trefi trp trfc ready withRefresh n)
      (ready n) (withRefresh n)

/-- Reachability invariant of the `Refresher`: while the FSM is in `IDLE`
or `WAIT-CONTROLLER-GRANT` the sequencer is idle (counter 0, done low), and
whenever the sequencer reports done its counter has just reset to 0. -/
def refInv (s : RefState) : Prop :=
  ((s.fsm = .idle ∨ s.fsm = .waitGrant) → s.seq.counter = 0 ∧ s.seq.done = false) ∧
    (s.seq.done = true → s.seq.counter = 0)

/-- An always-true input stream (grant always offered, refresh enabled). -/
def alwaysTrue : Nat → Bool := fun _ => true

/-- The end-to-end scenario of the spec: `tREFI = 100`, `tRP = 5`,
`tRFC = 10`, refresh enabled, grant offered every step. -/
def c8Trace : Nat → RefState := refTrace 100 5 10 alwaysTrue alwaysTrue

/-- A timer input stream holding `reset` high (refresh disabled) with the
other inputs arbitrary but fixed. -/
def disabledInput : Nat → TimerInput := fun _ => ⟨false, false, 0, true⟩

set_option maxRecDepth 10000

theorem timerDone_iff (c : Nat) : timerDone c = true ↔ c = 0 := by
  simp [timerDone]

theorem wired_step (i c : Nat) :
    timerStep i c (wiredInput c) = if c = 0 then i - 1 else c - 1 := by
  by_cases h : c = 0 <;> simp [timerStep, wiredInput, timerSync, timerDone, h]

theorem wiredFrom_succ (i c0 n : Nat) :
    wiredFrom i c0 (n + 1) =
      if wiredFrom i c0 n = 0 then i - 1 else wiredFrom i c0 n - 1 := by
  rw [wiredFrom, wired_step]

theorem wiredFrom_linear (i c : Nat) : ∀ k, k ≤ c → wiredFrom i c k = c - k := by
  intro k
  induction k with
  | zero => intro _; simp [wiredFrom]
  | succ k ih =>
    intro hk
    have hk' : k ≤ c := Nat.le_of_succ_le hk
    have hne : c - k ≠ 0 := by omega
    rw [wiredFrom_succ, ih hk', if_neg hne]
    omega

theorem wiredTrace_succ (i n : Nat) :
    wiredTrace i (n + 1) =
      if wiredTrace i n = 0 then i - 1 else wiredTrace i n - 1 := by
  unfold wiredTrace
  exact wiredFrom_succ i (i - 1) n

theorem wired_formula (i : Nat) (hi : 0 < i) (n : Nat) :
    wiredTrace i n = (i - 1) - n % i := by
  induction n with
  | zero => simp [wiredTrace, wiredFrom]
  | succ n ih =>
    have hr : n % i < i := Nat.mod_lt _ hi
    have hmod : (n % i + 1) % i = (n + 1) % i := Nat.mod_add_mod n i 1
    by_cases h : n % i = i - 1
    · have h0 : (n + 1) % i = 0 := by
        rw [← hmod, h]
        have hii : i - 1 + 1 = i := by omega
        rw [hii, Nat.mod_self]
      have ht : wiredTrace i n = 0 := by rw [ih]; omega
      rw [wiredTrace_succ, if_pos ht, h0]
      omega
    · have h1 : (n + 1) % i = n % i + 1 := by
        rw [← hmod]
        exact Nat.mod_eq_of_lt (by omega)
      have ht : wiredTrace i n ≠ 0 := by rw [ih]; omega
      rw [wiredTrace_succ, if_neg ht, ih, h1]
      omega

theorem wiredTrace_zero_iff (i : Nat) (hi : 0 < i) (n : Nat) :
    wiredTrace i n = 0 ↔ n % i = i - 1 := by
  rw [wired_formula i hi]
  have := Nat.mod_lt n hi
  omega

/-- C1: with `interval > 0` and the timer enabled continuously (`wait`
wired to the negation of `done`, never reset), `done` is asserted exactly
at the steps congruent to `interval - 1` modulo `interval` — hence for
exactly one step out of every `interval` consecutive steps, indefinitely —
and on the step after a `done` pulse the count has self-reloaded to
`interval - 1`. -/
theorem C1_timer_period (i : Nat) (hi : 0 < i) (n : Nat) :
    (timerDone (wiredTrace i n) = true ↔ n % i = i - 1) ∧
    (timerDone (wiredTrace i n) = true → wiredTrace i (n + 1) = i - 1) ∧
    (∀ m : Nat, ∃! k : Nat, k < i ∧ timerDone (wiredTrace i (m + k)) = true) := by
  refine ⟨by rw [timerDone_iff]; exact wiredTrace_zero_iff i hi n, ?_, ?_⟩
  · intro h
    have h0 : wiredTrace i n = 0 := (timerDone_iff _).mp h
    rw [wiredTrace_succ, if_pos h0]
  · intro m
    have hm : m % i < i := Nat.mod_lt _ hi
    refine ⟨i - 1 - m % i, ⟨by omega, ?_⟩, ?_⟩
    · rw [timerDone_iff, wiredTrace_zero_iff i hi]
      have hadd : (m % i + (i - 1 - m % i)) % i = (m + (i - 1 - m % i)) % i :=
        Nat.mod_add_mod m i (i - 1 - m % i)
      have hsum : m % i + (i - 1 - m % i) = i - 1 := by omega
      rw [← hadd, hsum]
      exact Nat.mod_eq_of_lt (by omega)
    · rintro k ⟨hk, hdone⟩
      rw [timerDone_iff, wiredTrace_zero_iff i hi] at hdone
      have hadd : (m % i + k) % i = (m + k) % i := Nat.mod_add_mod m i k
      rw [← hadd] at hdone
      rcases Nat.lt_or_ge (m % i + k) i with hlt | hge
      · rw [Nat.mod_eq_of_lt hlt] at hdone
        omega
      · rw [Nat.mod_eq_sub_mod hge, Nat.mod_eq_of_lt (by omega)] at hdone
        omega

theorem C1_witness : timerDone (wiredTrace 3 2) = true :=
  ((C1_timer_period 3 (by decide) 2).1).mpr (by decide)

/-- C9: while `wait` is asserted and the count is 0 (the pulse step), the
reload input is ignored whatever its value: the adopt∕decrement logic is
guarded by `~done`, so the count register holds 0 on the next step. -/
theorem C9_reload_ignored_at_zero (trefi : Nat) (ld : Bool) (lc c : Nat) (h : c = 0) :
    timerSync trefi c true ld lc = 0 := by
  subst h
  simp [timerSync]

theorem C9_witness : timerSync 7 0 true true 3 = 0 :=
  C9_reload_ignored_at_zero 7 true 3 0 rfl

/-- C6 (amended): from an enabled timer state with `remaining = c ≠ 0`,
injecting a reload value `v < c` sets the count register to `v` on the next
step, after which the pulse occurs exactly `v` further steps later — i.e.
`v + 1` steps after the injection step, not `v` as the claim states —
while injecting `v ≥ c` produces exactly the same next state as no
injection at all (the wait is never lengthened). -/
theorem C6_amended_reload (i c v lc : Nat) (hc : c ≠ 0) :
    (v < c →
      timerSync i c true true v = v ∧
      wiredFrom i (timerSync i c true true v) v = 0 ∧
      ∀ k, k < v → wiredFrom i (timerSync i c true true v) k ≠ 0) ∧
    (c ≤ v → timerSync i c true true v = timerSync i c true false lc) := by
  constructor
  · intro hv
    have hs : timerSync i c true true v = v := by simp [timerSync, hc, hv]
    refine ⟨hs, ?_, ?_⟩
    · rw [hs, wiredFrom_linear i v v Nat.le.refl]
      omega
    · intro k hk
      rw [hs, wiredFrom_linear i v k (Nat.le_of_lt hk)]
      omega
  · intro hv
    have hnv : ¬ v < c := Nat.not_lt.mpr hv
    simp [timerSync, hc, hnv]

/-- C6 (counterexample): enabled timer with `remaining = 3`, reload value
`v = 1` injected.  The claim as stated puts the next pulse exactly `v = 1`
step after the injection, but the count register one step after the
injection is `1`, not `0` (no pulse); the pulse occurs one further step
later. -/
theorem C6_counterexample :
    timerSync 5 3 true true 1 = 1 ∧ (1 : Nat) ≠ 0 ∧
    wiredFrom 5 (timerSync 5 3 true true 1) 1 = 0 := by
  decide

theorem C6_witness :
    timerSync 9 4 true true 2 = 2 ∧ wiredFrom 9 (timerSync 9 4 true true 2) 2 = 0 := by
  have h := (C6_amended_reload 9 4 2 0 (by decide)).1 (by decide)
  exact ⟨h.1, h.2.1⟩

/-- C7 (amended): while the enable gate is held false (timer `reset` held
high), from the first clock edge after disablement onward the count
register is pinned at `interval - 1`, and for `interval > 1` the `done`
output is not asserted on any of those steps.  On the step disablement
begins the register still holds its prior value (the reset is synchronous),
so the original claim's "every step, regardless of prior state" fails
there, and for `interval = 1` the pinned value is 0 so `done` stays
asserted. -/
theorem C7_amended_disable (i c : Nat) (inp : Nat → TimerInput)
    (hres : ∀ n, (inp n).reset = true) (n : Nat) (hn : 1 ≤ n) :
    timerTrace i c inp n = i - 1 ∧
      (1 < i → timerDone (timerTrace i c inp n) = false) := by
  obtain ⟨m, rfl⟩ : ∃ m, n = m + 1 := ⟨n - 1, by omega⟩
  have ht : timerTrace i c inp (m + 1) = i - 1 := by
    rw [timerTrace, timerStep, if_pos (hres m)]
  refine ⟨ht, fun h2 => ?_⟩
  rw [ht]
  have : i - 1 ≠ 0 := by omega
  simp [timerDone, this]

/-- C7 (counterexample): interval 2, gate held false, prior count 0.  On
the first disabled step the count is still 0 (not `interval - 1 = 1`) and
`done` is asserted, contradicting the claim for that step. -/
theorem C7_counterexample :
    timerTrace 2 0 disabledInput 0 = 0 ∧ (2 - 1 : Nat) = 1 ∧
    timerDone (timerTrace 2 0 disabledInput 0) = true := by
  decide

theorem C7_witness :
    timerTrace 3 5 disabledInput 1 = 2 ∧
      timerDone (timerTrace 3 5 disabledInput 1) = false := by
  have h := C7_amended_disable 3 5 disabledInput (fun _ => rfl) 1 (by decide)
  exact ⟨h.1, h.2 (by decide)⟩

theorem seqTrace_counter (trp trfc t : Nat) (hL : 0 < trp + trfc) (n : Nat) :
    (seqTrace trp trfc (pulseAt t) n).counter = cntSpec trp trfc t n := by
  induction n with
  | zero =>
    simp [seqTrace, seqInit, cntSpec]
  | succ n ih =>
    rw [seqTrace]
    simp only [seqStep, ih]
    rcases Nat.lt_trichotomy n t with hn | hn | hn
    · have hp : pulseAt t n = false := by simp [pulseAt]; omega
      have hc : cntSpec trp trfc t n = 0 := by unfold cntSpec; split <;> omega
      have hc1 : cntSpec trp trfc t (n + 1) = 0 := by unfold cntSpec; split <;> omega
      simp [tlCounterNext, hp, hc, hc1]
    · subst hn
      have hp : pulseAt n n = true := by simp [pulseAt]
      have hc : cntSpec trp trfc n n = 0 := by unfold cntSpec; split <;> omega
      have hc1 : cntSpec trp trfc n (n + 1) = 1 := by unfold cntSpec; split <;> omega
      simp [tlCounterNext, hp, hc, hc1] <;> omega
    · have hp : pulseAt t n = false := by simp [pulseAt]; omega
      rcases Nat.lt_or_ge n (t + (trp + trfc)) with hn2 | hn2
      · have hc : cntSpec trp trfc t n = n - t := by unfold cntSpec; split <;> omega
        have hne : n - t ≠ 0 := by omega
        have hneL : n - t ≠ trp + trfc := by omega
        have hc1 : cntSpec trp trfc t (n + 1) = n + 1 - t := by
          unfold cntSpec; split <;> omega
        simp [tlCounterNext, hp, hc, hc1, hne, hneL] <;> omega
      · rcases Nat.eq_or_lt_of_le hn2 with hn3 | hn3
        · have hc : cntSpec trp trfc t n = trp + trfc := by unfold cntSpec; split <;> omega
          have hc1 : cntSpec trp trfc t (n + 1) = 0 := by unfold cntSpec; split <;> omega
          simp [tlCounterNext, hp, hc, hc1]
        · have hc : cntSpec trp trfc t n = 0 := by unfold cntSpec; split <;> omega
          have hc1 : cntSpec trp trfc t (n + 1) = 0 := by unfold cntSpec; split <;> omega
          simp [tlCounterNext, hp, hc, hc1]

theorem seqTrace_outputs (trp trfc t : Nat) (h1 : 0 < trp) (h2 : 0 < trfc) (n : Nat) :
    ((seqTrace trp trfc (pulseAt t) n).done = true ↔ n = t + (trp + trfc) + 1) ∧
    ((seqTrace trp trfc (pulseAt t) n).we = true ↔ n = t + 1) ∧
    ((seqTrace trp trfc (pulseAt t) n).cas = true ↔ n = t + trp + 1) ∧
    ((seqTrace trp trfc (pulseAt t) n).ras = true ↔ (n = t + 1 ∨ n = t + trp + 1)) := by
  cases n with
  | zero =>
    simp [seqTrace, seqInit]
  | succ n =>
    rw [seqTrace]
    simp only [seqStep, seqTrace_counter trp trfc t (by omega) n]
    have htrp : trp ≠ 0 := by omega
    have hL0 : trp + trfc ≠ 0 := by omega
    by_cases hr : t + 1 ≤ n ∧ n ≤ t + (trp + trfc)
    · have hc : cntSpec trp trfc t n = n - t := by unfold cntSpec; split <;> omega
      rw [hc]
      refine ⟨?_, ?_, ?_, ?_⟩ <;> simp [evCond, pulseAt, htrp, hL0] <;> omega
    · have hc : cntSpec trp trfc t n = 0 := by unfold cntSpec; split <;> omega
      rw [hc]
      refine ⟨?_, ?_, ?_, ?_⟩ <;> simp [evCond, pulseAt, htrp, hL0] <;> omega

theorem seqTrace_noStart (trp trfc : Nat) (h1 : 0 < trp) (h2 : 0 < trfc) (n : Nat) :
    (seqTrace trp trfc (fun _ => false) n).done = false ∧
      (seqTrace trp trfc (fun _ => false) n).cas = false ∧
      (seqTrace trp trfc (fun _ => false) n).ras = false ∧
      (seqTrace trp trfc (fun _ => false) n).we = false := by
  have hcnt : ∀ m, (seqTrace trp trfc (fun _ => false) m).counter = 0 := by
    intro m
    induction m with
    | zero => simp [seqTrace, seqInit]
    | succ m ih =>
      rw [seqTrace]
      simp only [seqStep, ih]
      simp [tlCounterNext]
  cases n with
  | zero => simp [seqTrace, seqInit]
  | succ n =>
    rw [seqTrace]
    simp only [seqStep, hcnt n]
    have htrp : trp ≠ 0 := by omega
    have hL0 : trp + trfc ≠ 0 := by omega
    simp [evCond, htrp, hL0] <;> omega

/-- C2 (amended): after a single one-step `start` trigger at step `t` the
sequencer's registered `done` output asserts exactly once, at step
`t + prechargeDelay + refreshDuration + 1` — one step later than the claim
states, because `done` is a registered output of the `timeline` — and at no
other step; and if `start` is never asserted, `done` and all strobes stay
false forever. -/
theorem C2_amended_done_timing (trp trfc t : Nat) (h1 : 0 < trp) (h2 : 0 < trfc) :
    (∀ n, (seqTrace trp trfc (pulseAt t) n).done = true ↔ n = t + (trp + trfc) + 1) ∧
    (∀ n, (seqTrace trp trfc (fun _ => false) n).done = false ∧
      (seqTrace trp trfc (fun _ => false) n).cas = false ∧
      (seqTrace trp trfc (fun _ => false) n).ras = false ∧
      (seqTrace trp trfc (fun _ => false) n).we = false) :=
  ⟨fun n => (seqTrace_outputs trp trfc t h1 h2 n).1,
   fun n => seqTrace_noStart trp trfc h1 h2 n⟩

/-- C2 (counterexample): with `tRP = 1`, `tRFC = 1` and the trigger at
step 0, the claim as stated puts the unique `done` pulse at step
`0 + 1 + 1 = 2`, but `done` is false there and asserts at step 3
instead. -/
theorem C2_counterexample :
    (seqTrace 1 1 (pulseAt 0) 2).done = false ∧
      (seqTrace 1 1 (pulseAt 0) 3).done = true := by
  decide

theorem C2_witness : (seqTrace 1 1 (pulseAt 0) 3).done = true :=
  ((C2_amended_done_timing 1 1 0 (by decide) (by decide)).1 3).mpr (by decide)

/-- C3 (amended): in the run after a single trigger at step `t`, the
registered strobes realise each scheduled offset one step late:
`rasStrobe ∧ writeEnableStrobe` hold exactly at step `t + 1` (scheduled
offset 0), `casStrobe ∧ rasStrobe` hold exactly at step
`t + prechargeDelay + 1` (scheduled offset `prechargeDelay`), each for a
single step, and no strobe is asserted at any other step. -/
theorem C3_amended_strobe_schedule (trp trfc t : Nat) (h1 : 0 < trp) (h2 : 0 < trfc)
    (n : Nat) :
    ((seqTrace trp trfc (pulseAt t) n).ras = true ∧
        (seqTrace trp trfc (pulseAt t) n).we = true ↔ n = t + 1) ∧
    ((seqTrace trp trfc (pulseAt t) n).cas = true ∧
        (seqTrace trp trfc (pulseAt t) n).ras = true ↔ n = t + trp + 1) ∧
    ((seqTrace trp trfc (pulseAt t) n).cas = true ∨
        (seqTrace trp trfc (pulseAt t) n).ras = true ∨
        (seqTrace trp trfc (pulseAt t) n).we = true →
      n = t + 1 ∨ n = t + trp + 1) := by
  obtain ⟨hd, hw, hc, hras⟩ := seqTrace_outputs trp trfc t h1 h2 n
  rw [hw, hc, hras]
  refine ⟨by omega, by omega, by omega⟩

/-- C3 (counterexample): with `tRP = 1`, `tRFC = 1` and the trigger at
step 1, the claim as stated asserts `writeEnableStrobe` at trigger offset
0, i.e. at step 1, but the registered strobe is false there and asserts at
step 2 instead. -/
theorem C3_counterexample :
    (seqTrace 1 1 (pulseAt 1) 1).we = false ∧
      (seqTrace 1 1 (pulseAt 1) 2).we = true := by
  decide

theorem C3_witness :
    (seqTrace 2 1 (pulseAt 0) 1).ras = true ∧ (seqTrace 2 1 (pulseAt 0) 1).we = true :=
  ((C3_amended_strobe_schedule 2 1 0 (by decide) (by decide) 1).1).mpr (by decide)

theorem tl_done_counter (L c : Nat) (st : Bool) :
    evCond st c L = true → tlCounterNext L c st = 0 := by
  intro h
  by_cases hL : L = 0
  · subst hL
    simp [evCond] at h
    simp [tlCounterNext, h.2]
  · simp [evCond, hL] at h
    simp [tlCounterNext, h]

theorem seqStep_quiescent (trp trfc : Nat) (s : SeqState) (h0 : s.counter = 0) :
    (seqStep trp trfc s false).counter = 0 ∧ (seqStep trp trfc s false).done = false := by
  constructor
  · simp only [seqStep, tlCounterNext, h0]
    split <;> simp
  · simp only [seqStep, evCond, h0]
    split <;> simp_all <;> omega

theorem refInv_trace (trefi trp trfc : Nat) (ready wr : Nat → Bool) (n : Nat) :
    refInv (refTrace trefi trp trfc ready wr n) := by
  induction n with
  | zero =>
    simp [refTrace, refInit, refInv, seqInit]
  | succ n ih =>
    rw [refTrace]
    set s := refTrace trefi trp trfc ready wr n with hs
    obtain ⟨ih1, ih2⟩ := ih
    constructor
    · intro hfsm
      have hnext :
          (refStep trefi trp trfc s (ready n) (wr n)).seq =
            seqStep trp trfc s.seq (seqStart s (ready n)) := rfl
      cases hf : s.fsm with
      | idle =>
        have hseq := ih1 (Or.inl hf)
        have hstart : seqStart s (ready n) = false := by simp [seqStart, hf]
        rw [hnext, hstart]
        exact seqStep_quiescent trp trfc s.seq hseq.1
      | waitGrant =>
        by_cases hrdy : ready n = true
        · exfalso
          have hws : (refStep trefi trp trfc s (ready n) (wr n)).fsm = FsmState.waitSeq := by
            show fsmNext s (ready n) = _
            simp [fsmNext, hf, hrdy]
          simp [hws] at hfsm
        · have hseq := ih1 (Or.inr hf)
          have hrdy' : ready n = false := by
            revert hrdy
            cases ready n <;> simp
          have hstart : seqStart s (ready n) = false := by simp [seqStart, hf, hrdy']
          rw [hnext, hstart]
          exact seqStep_quiescent trp trfc s.seq hseq.1
      | waitSeq =>
        have hdone : s.seq.done = true := by
          by_contra hnd
          have hb : s.seq.done = false := by
            revert hnd
            cases s.seq.done <;> simp
          have hws : (refStep trefi trp trfc s (ready n) (wr n)).fsm = FsmState.waitSeq := by
            show fsmNext s (ready n) = _
            simp [fsmNext, hf, hb]
          simp [hws] at hfsm
        have hc0 := ih2 hdone
        have hstart : seqStart s (ready n) = false := by simp [seqStart, hf]
        rw [hnext, hstart]
        exact seqStep_quiescent trp trfc s.seq hc0
    · intro hdone
      exact tl_done_counter (trp + trfc) s.seq.counter (seqStart s (ready n)) hdone

/-- C4: in every reachable step of the `Refresher`, `cmd.valid` is
asserted only while the FSM is in `WAIT-CONTROLLER-GRANT` or in
`WAIT-SEQUENCER` before the completion step (sequencer not yet done); in
particular it is never asserted while the FSM is in `IDLE`. -/
theorem C4_valid_only_while_active (trefi trp trfc : Nat) (ready wr : Nat → Bool)
    (n : Nat) :
    (cmdValid (refTrace trefi trp trfc ready wr n) = true →
      (refTrace trefi trp trfc ready wr n).fsm = FsmState.waitGrant ∨
        ((refTrace trefi trp trfc ready wr n).fsm = FsmState.waitSeq ∧
          (refTrace trefi trp trfc ready wr n).seq.done = false)) ∧
    ((refTrace trefi trp trfc ready wr n).fsm = FsmState.idle →
      cmdValid (refTrace trefi trp trfc ready wr n) = false) := by
  set s := refTrace trefi trp trfc ready wr n
  constructor
  · intro hv
    cases hf : s.fsm with
    | idle => simp [cmdValid, hf] at hv
    | waitGrant => exact Or.inl rfl
    | waitSeq =>
      refine Or.inr ⟨rfl, ?_⟩
      simp [cmdValid, hf] at hv
      exact hv
  · intro hi
    simp [cmdValid, hi]

theorem C4_witness :
    (refTrace 2 1 1 alwaysTrue alwaysTrue 2).fsm = FsmState.waitGrant ∨
      ((refTrace 2 1 1 alwaysTrue alwaysTrue 2).fsm = FsmState.waitSeq ∧
        (refTrace 2 1 1 alwaysTrue alwaysTrue 2).seq.done = false) :=
  (C4_valid_only_while_active 2 1 1 alwaysTrue alwaysTrue 2).1 (by decide)

/-- C5: in every reachable step of the `Refresher`, `cmd.last` is asserted
exactly on the steps where the sequencer's registered `done` fires (this
uses the reachability invariant: `done` can only fire while the FSM is in
`WAIT-SEQUENCER`); on the immediately following step the FSM is back in
`IDLE` and `cmd.last` is deasserted again, so `final` holds for exactly one
step per maintenance cycle; and the FSM never leaves `WAIT-SEQUENCER` for
`IDLE` without `cmd.last` being asserted. -/
theorem C5_final_coincides_done (trefi trp trfc : Nat) (ready wr : Nat → Bool)
    (n : Nat) :
    (cmdLast (refTrace trefi trp trfc ready wr n) = true ↔
      (refTrace trefi trp trfc ready wr n).seq.done = true) ∧
    (cmdLast (refTrace trefi trp trfc ready wr n) = true →
      (refTrace trefi trp trfc ready wr (n + 1)).fsm = FsmState.idle) ∧
    (cmdLast (refTrace trefi trp trfc ready wr n) = true →
      cmdLast (refTrace trefi trp trfc ready wr (n + 1)) = false) ∧
    ((refTrace trefi trp trfc ready wr n).fsm = FsmState.waitSeq →
      (refTrace trefi trp trfc ready wr (n + 1)).fsm = FsmState.idle →
      cmdLast (refTrace trefi trp trfc ready wr n) = true) := by
  have hinv := refInv_trace trefi trp trfc ready wr n
  set s := refTrace trefi trp trfc ready wr n with hs
  have hfsm1 : (refTrace trefi trp trfc ready wr (n + 1)).fsm = fsmNext s (ready n) := by
    rw [refTrace, ← hs]
    rfl
  have hlast : cmdLast s = true → s.fsm = FsmState.waitSeq ∧ s.seq.done = true := by
    intro hl
    cases hf : s.fsm with
    | idle => simp [cmdLast, hf] at hl
    | waitGrant => simp [cmdLast, hf] at hl
    | waitSeq =>
      refine ⟨rfl, ?_⟩
      simp [cmdLast, hf] at hl
      exact hl
  refine ⟨⟨fun hl => (hlast hl).2, fun hd => ?_⟩, fun hl => ?_, fun hl => ?_, fun hf hi => ?_⟩
  · have hf : s.fsm = FsmState.waitSeq := by
      cases hf : s.fsm with
      | idle => exact absurd (hinv.1 (Or.inl hf)).2 (by simp [hd])
      | waitGrant => exact absurd (hinv.1 (Or.inr hf)).2 (by simp [hd])
      | waitSeq => rfl
    simp [cmdLast, hf, hd]
  · obtain ⟨hf, hd⟩ := hlast hl
    rw [hfsm1]
    simp [fsmNext, hf, hd]
  · obtain ⟨hf, hd⟩ := hlast hl
    have hidle : (refTrace trefi trp trfc ready wr (n + 1)).fsm = FsmState.idle := by
      rw [hfsm1]
      simp [fsmNext, hf, hd]
    simp [cmdLast, hidle]
  · rw [hfsm1] at hi
    cases hd : s.seq.done with
    | false => simp [fsmNext, hf, hd] at hi
    | true => simp [cmdLast, hf, hd]

theorem C5_witness : (refTrace 2 1 1 alwaysTrue alwaysTrue 6).fsm = FsmState.idle :=
  (C5_final_coincides_done 2 1 1 alwaysTrue alwaysTrue 5).2.1 (by decide)

/-- C10: in every reachable step of the `Refresher`, `cmd.valid` and
`cmd.last` are never asserted on the same step; on the completion step
(FSM in `WAIT-SEQUENCER` with the sequencer done) `cmd.valid` is
deasserted while `cmd.last` is asserted. -/
theorem C10_valid_last_disjoint (trefi trp trfc : Nat) (ready wr : Nat → Bool)
    (n : Nat) :
    ¬(cmdValid (refTrace trefi trp trfc ready wr n) = true ∧
        cmdLast (refTrace trefi trp trfc ready wr n) = true) ∧
    ((refTrace trefi trp trfc ready wr n).fsm = FsmState.waitSeq ∧
        (refTrace trefi trp trfc ready wr n).seq.done = true →
      cmdValid (refTrace trefi trp trfc ready wr n) = false ∧
        cmdLast (refTrace trefi trp trfc ready wr n) = true) := by
  set s := refTrace trefi trp trfc ready wr n
  constructor
  · rintro ⟨hv, hl⟩
    cases hf : s.fsm with
    | idle => simp [cmdLast, hf] at hl
    | waitGrant => simp [cmdLast, hf] at hl
    | waitSeq =>
      simp [cmdLast, hf] at hl
      simp [cmdValid, hf, hl] at hv
  · rintro ⟨hf, hd⟩
    constructor
    · simp [cmdValid, hf, hd]
    · simp [cmdLast, hf, hd]

theorem C10_witness :
    cmdValid (refTrace 2 1 1 alwaysTrue alwaysTrue 5) = false ∧
      cmdLast (refTrace 2 1 1 alwaysTrue alwaysTrue 5) = true :=
  (C10_valid_last_disjoint 2 1 1 alwaysTrue alwaysTrue 5).2 (by decide)

theorem refTrace_count (trefi trp trfc : Nat) (ready : Nat → Bool) (n : Nat) :
    (refTrace trefi trp trfc ready alwaysTrue n).count = wiredTrace trefi n := by
  induction n with
  | zero => rfl
  | succ n ih =>
    rw [refTrace]
    show timerStep trefi (refTrace trefi trp trfc ready alwaysTrue n).count
        ⟨!timerDone (refTrace trefi trp trfc ready alwaysTrue n).count, false, 0,
          !alwaysTrue n⟩ = _
    rw [ih]
    show timerStep trefi (wiredTrace trefi n) (wiredInput (wiredTrace trefi n)) = _
    rw [wiredTrace, wiredFrom]

/-- C8 (amended): in the end-to-end scenario (`interval = 100`,
`prechargeDelay = 5`, `refreshDuration = 10`, refresh always enabled,
grant offered every step, so the request is granted the step it is first
asserted), the timer pulses exactly at the steps `n` with
`n % 100 = 99`, i.e. at steps 99, 199, 299, …; for the pulse at step 99 the
request is asserted (and granted) at step 100, the `ras`∕`we` strobes are
active at step 101, the `cas`∕`ras` strobes at step 106, the sequencer's
`done` and `cmd.last` are both asserted at step 116 (with `cmd.valid`
deasserted there), the FSM is back in `IDLE` at step 117, and the next
timer pulse is at step 199 — each event one or two steps later than the
claim's step numbers, reflecting the FSM-transition and registered-output
latencies. -/
theorem C8_amended_scenario :
    (∀ n, timerDone (c8Trace n).count = true ↔ n % 100 = 99) ∧
    (c8Trace 99).count = 0 ∧
    cmdValid (c8Trace 100) = true ∧ (c8Trace 100).fsm = FsmState.waitGrant ∧
    (c8Trace 101).fsm = FsmState.waitSeq ∧
    (c8Trace 101).seq.ras = true ∧ (c8Trace 101).seq.we = true ∧
    (c8Trace 106).seq.cas = true ∧ (c8Trace 106).seq.ras = true ∧
    (c8Trace 116).seq.done = true ∧ cmdLast (c8Trace 116) = true ∧
    cmdValid (c8Trace 116) = false ∧
    (c8Trace 117).fsm = FsmState.idle ∧
    (c8Trace 199).count = 0 := by
  constructor
  · intro n
    have hc : (c8Trace n).count = wiredTrace 100 n :=
      refTrace_count 100 5 10 alwaysTrue n
    rw [hc, timerDone_iff, wiredTrace_zero_iff 100 (by decide) n]
  · refine ⟨by decide, by decide, by decide, by decide, by decide, by decide, by decide,
      by decide, by decide, by decide, by decide, by decide, by decide⟩

/-- C8 (counterexample): the claim places the first timer pulse, the
request, the grant and the `ras`∕`we` strobes all at step 100, but at step
100 the timer count is 99 (the pulse was at step 99) and no strobe is
asserted, and at the pulse step 99 the request is not yet asserted: the
FSM observes the pulse one step late and the strobes are registered one
step after the grant. -/
theorem C8_counterexample :
    (c8Trace 100).count = 99 ∧ (c8Trace 100).seq.ras = false ∧
      (c8Trace 100).seq.we = false ∧
      (c8Trace 99).count = 0 ∧ cmdValid (c8Trace 99) = false := by
  decide

end LiteDRAM
